import Mathlib

/-!
Shallow embedding of the trading-dashboard core: the indicator library
(`src/types/trading.ts` indicator section), the Heikin-Ashi transform
(`src/utils/heikinAshi.ts`), the reversal pattern detector
(`src/utils/haPatterns.ts`) and the watchlist scanner
(`src/hooks/useHAScanner.ts`).  JS numbers are modelled as rationals,
JS arrays as lists; an out-of-bounds element access (which in JS throws
a TypeError when a property of `undefined` is read) is modelled with
`Option`.  All definitions are faithful for the parameter ranges the
properties quantify over (periods at least 1).
-/

namespace Trading

/-- The shared candle record (`Candle` in `src/types/trading.ts`); `open` is a
Lean keyword, so the field is spelled `open_`.  The Heikin-Ashi transform in
`src/utils/heikinAshi.ts` also passes a `volume` field through. -/
structure Candle where
  time : Int
  open_ : ℚ
  high : ℚ
  low : ℚ
  close : ℚ
  volume : ℚ
deriving DecidableEq, Inhabited, Repr

/-- Record `IndicatorPoint` from `src/types/trading.ts`. -/
structure IndicatorPoint where
  time : Int
  value : ℚ
deriving DecidableEq, Inhabited, Repr

/-- Record `StochasticPoint` from `src/types/trading.ts`. -/
structure StochasticPoint where
  time : Int
  k : ℚ
  d : ℚ
deriving DecidableEq, Inhabited, Repr

/-- Record `ATRPercentPoint` from `src/types/trading.ts`. -/
structure ATRPercentPoint where
  time : Int
  value : ℚ
  color : String
deriving DecidableEq, Inhabited, Repr

/-- First Heikin-Ashi candle (`i === 0` branch of `convertToHeikinAshi`). -/
def haFirst (c : Candle) : Candle :=
  let haClose := (c.open_ + c.high + c.low + c.close) / 4
  let haOpen := (c.open_ + c.close) / 2
  { time := c.time
    open_ := haOpen
    high := max c.high (max haOpen haClose)
    low := min c.low (min haOpen haClose)
    close := haClose
    volume := c.volume }

/-- Subsequent Heikin-Ashi candle (`i > 0` branch of `convertToHeikinAshi`):
`haOpen` comes from the previous *output* candle. -/
def haNext (prev c : Candle) : Candle :=
  let haClose := (c.open_ + c.high + c.low + c.close) / 4
  let haOpen := (prev.open_ + prev.close) / 2
  { time := c.time
    open_ := haOpen
    high := max c.high (max haOpen haClose)
    low := min c.low (min haOpen haClose)
    close := haClose
    volume := c.volume }

/-- Tail of the Heikin-Ashi loop, threading the previous output candle. -/
def haGo (prev : Candle) : List Candle → List Candle
  | [] => []
  | c :: rest =>
      let h := haNext prev c
      h :: haGo h rest

/-- Function `convertToHeikinAshi` from `src/utils/heikinAshi.ts`. -/
def convertToHeikinAshi : List Candle → List Candle
  | [] => []
  | c :: rest =>
      let h := haFirst c
      h :: haGo h rest

/-- Type `PatternDirection` from `src/utils/haPatterns.ts`. -/
inductive PatternDirection where
  | bullish
  | bearish
deriving DecidableEq, Inhabited, Repr

/-- Helper `isGreen` of `detectHAReversal`: close strictly above open. -/
def isGreen (c : Candle) : Bool := c.open_ < c.close

/-- Helper `isRed` of `detectHAReversal`: close strictly below open. -/
def isRed (c : Candle) : Bool := c.close < c.open_

/-- Function `detectHAReversal` from `src/utils/haPatterns.ts`: fewer than 5 raw
candles gives no signal; otherwise the last 4 Heikin-Ashi candles are
classified (3 red then green is bullish, 3 green then red is bearish). -/
def detectHAReversal (candles : List Candle) : Option PatternDirection :=
  if candles.length < 5 then none
  else
    let haCandles := convertToHeikinAshi candles
    let len := haCandles.length
    let c4 := haCandles.getD (len - 1) default
    let c3 := haCandles.getD (len - 2) default
    let c2 := haCandles.getD (len - 3) default
    let c1 := haCandles.getD (len - 4) default
    if isRed c1 && isRed c2 && isRed c3 && isGreen c4 then some .bullish
    else if isGreen c1 && isGreen c2 && isGreen c3 && isRed c4 then some .bearish
    else none

/-- Function `calculateSMA` from `src/types/trading.ts`.  The JS loop runs
`i = period-1 .. length-1`; each window access `candles[i-j]` is modelled
with `Option` so that a JS TypeError (reading a field of `undefined`)
surfaces as `none`. -/
def calculateSMA (candles : List Candle) (period : ℕ) : Option (List IndicatorPoint) :=
  ((List.range candles.length).drop (period - 1)).mapM fun i => do
    let window ← (List.range period).mapM fun j => candles[i - j]?
    let c ← candles[i]?
    pure { time := c.time, value := (window.map Candle.close).sum / period }

/-- The recurrence part of `calculateEMA` (`for i = period; ...` loop). -/
def emaLoop (multiplier : ℚ) : ℚ → List Candle → List IndicatorPoint
  | _, [] => []
  | ema, c :: rest =>
      let e := (c.close - ema) * multiplier + ema
      { time := c.time, value := e } :: emaLoop multiplier e rest

/-- Function `calculateEMA` from `src/types/trading.ts`.  Unlike every other
indicator, the source has no insufficient-history guard: the seed loop
`for i = 0..period-1 { sum += candles[i].close }` reads out of bounds when
`candles.length < period`, which in JS throws a TypeError; that fault is
modelled as `none`. -/
def calculateEMA (candles : List Candle) (period : ℕ) : Option (List IndicatorPoint) := do
  let seedCloses ← (List.range period).mapM fun i => (candles[i]?).map Candle.close
  let c0 ← candles[period - 1]?
  let ema := seedCloses.sum / period
  pure ({ time := c0.time, value := ema } ::
    emaLoop (2 / ((period : ℚ) + 1)) ema (candles.drop period))

/-- One RSI sample from the current Wilder averages:
`RS = avgLoss == 0 ? 100 : avgGain/avgLoss`, `RSI = 100 - 100/(1+RS)`. -/
def rsiStep (avgGain avgLoss : ℚ) : ℚ :=
  let rs := if avgLoss = 0 then 100 else avgGain / avgLoss
  100 - 100 / (1 + rs)

/-- The `i > period` part of the `calculateRSI` loop: Wilder smoothing of the
gain/loss averages, one point per remaining candle. -/
def rsiLoop (period : ℕ) : ℚ → ℚ → List (ℚ × ℚ × Candle) → List IndicatorPoint
  | _, _, [] => []
  | avgGain, avgLoss, (g, l, c) :: rest =>
      let ag := (avgGain * ((period : ℚ) - 1) + g) / period
      let al := (avgLoss * ((period : ℚ) - 1) + l) / period
      { time := c.time, value := rsiStep ag al } :: rsiLoop period ag al rest

/-- The close-to-close deltas (`changes` array of `calculateRSI`). -/
def rsiChanges (candles : List Candle) : List ℚ :=
  List.zipWith (fun prev cur => cur.close - prev.close) candles candles.tail

/-- The `gains` array of `calculateRSI`: positive deltas, else 0. -/
def rsiGains (candles : List Candle) : List ℚ :=
  (rsiChanges candles).map fun c => if 0 < c then c else 0

/-- The `losses` array of `calculateRSI`: absolute negative deltas, else 0. -/
def rsiLosses (candles : List Candle) : List ℚ :=
  (rsiChanges candles).map fun c => if c < 0 then |c| else 0

/-- Function `calculateRSI` from `src/types/trading.ts`: close-to-close deltas, seed
averages as plain means of the first `period` gains/losses, then Wilder
smoothing.  Guarded: fewer than `period + 1` candles gives `[]`. -/
def calculateRSI (candles : List Candle) (period : ℕ) : List IndicatorPoint :=
  if candles.length < period + 1 then []
  else
    let avgGain := ((rsiGains candles).take period).sum / period
    let avgLoss := ((rsiLosses candles).take period).sum / period
    { time := (candles.getD period default).time, value := rsiStep avgGain avgLoss } ::
      rsiLoop period avgGain avgLoss
        (((rsiGains candles).drop period).zip
          (((rsiLosses candles).drop period).zip (candles.drop (period + 1))))

/-- Highs of the `kPeriod`-window ending at index `i` (Stochastic). -/
def windowHighs (candles : List Candle) (kPeriod i : ℕ) : List ℚ :=
  (List.range kPeriod).map fun j => (candles.getD (i - j) default).high

/-- Lows of the `kPeriod`-window ending at index `i` (Stochastic). -/
def windowLows (candles : List Candle) (kPeriod i : ℕ) : List ℚ :=
  (List.range kPeriod).map fun j => (candles.getD (i - j) default).low

/-- Value `highestHigh` of the window: the JS fold seeds with `-Infinity`, which
for a nonempty window equals folding `max` from the first element. -/
def stochHH (candles : List Candle) (kPeriod i : ℕ) : ℚ :=
  (windowHighs candles kPeriod i).foldl max ((windowHighs candles kPeriod i).headD 0)

/-- Value `lowestLow` of the window (JS seeds with `Infinity`). -/
def stochLL (candles : List Candle) (kPeriod i : ℕ) : ℚ :=
  (windowLows candles kPeriod i).foldl min ((windowLows candles kPeriod i).headD 0)

/-- Raw `%K` at candle index `i`: `(close - lowestLow)/range * 100`, with the
explicit fallback `50` when the window range is zero. -/
def stochRawK (candles : List Candle) (kPeriod i : ℕ) : ℚ :=
  let hh := stochHH candles kPeriod i
  let ll := stochLL candles kPeriod i
  if hh - ll = 0 then 50
  else ((candles.getD i default).close - ll) / (hh - ll) * 100

/-- The `rawK` array of `calculateStochastic`, one value per loop index. -/
def stochRawKList (candles : List Candle) (kPeriod : ℕ) : List ℚ :=
  ((List.range candles.length).drop (kPeriod - 1)).map (stochRawK candles kPeriod)

/-- The `smoothedK` array of `calculateStochastic`: SMA of `smooth` raw `%K`
values (this becomes the final `%K`). -/
def stochSmoothedK (candles : List Candle) (kPeriod smooth : ℕ) : List ℚ :=
  ((List.range (stochRawKList candles kPeriod).length).drop (smooth - 1)).map fun i =>
    (((List.range smooth).map fun j =>
      (stochRawKList candles kPeriod).getD (i - j) 0).sum) / smooth

/-- Function `calculateStochastic` from `src/types/trading.ts`: raw `%K` per window,
`%K` smoothed by an SMA of `smooth` values, `%D` an SMA of `dPeriod` smoothed
values, output time at candle index `kPeriod - 1 + smooth - 1 + i`. -/
def calculateStochastic (candles : List Candle) (kPeriod dPeriod smooth : ℕ) :
    List StochasticPoint :=
  if candles.length < kPeriod + dPeriod + smooth - 2 then []
  else
    ((List.range (stochSmoothedK candles kPeriod smooth).length).drop
        (dPeriod - 1)).map fun i =>
      let d := (((List.range dPeriod).map fun j =>
        (stochSmoothedK candles kPeriod smooth).getD (i - j) 0).sum) / dPeriod
      { time := (candles.getD (kPeriod - 1 + smooth - 1 + i) default).time
        k := (stochSmoothedK candles kPeriod smooth).getD i 0
        d := d }

/-- Green color constant of the ATR% classifier. -/
def colorGreen : String := "#22C55E"

/-- Yellow color constant of the ATR% classifier. -/
def colorYellow : String := "#EAB308"

/-- Orange color constant of the ATR% classifier. -/
def colorOrange : String := "#F97316"

/-- Red color constant of the ATR% classifier. -/
def colorRed : String := "#EF4444"

/-- The `getColor` closure of `calculateATRPercent`: first-match-wins strict
comparisons against the three thresholds, in source order. -/
def getColor (lowThreshold mediumThreshold highThreshold atrPercent : ℚ) : String :=
  if atrPercent < lowThreshold then colorGreen
  else if atrPercent < mediumThreshold then colorYellow
  else if atrPercent < highThreshold then colorOrange
  else colorRed

/-- True Range of a candle given the previous close. -/
def trueRange (prevClose : ℚ) (c : Candle) : ℚ :=
  max (c.high - c.low) (max |c.high - prevClose| |c.low - prevClose|)

/-- Wilder-smoothing tail of `calculateATRPercent`: one point per remaining
(true range, candle) pair. -/
def atrLoop (lowT medT highT : ℚ) (period : ℕ) : ℚ → List (ℚ × Candle) → List ATRPercentPoint
  | _, [] => []
  | atr, (tr, c) :: rest =>
      let atr2 := (atr * ((period : ℚ) - 1) + tr) / period
      let ap := atr2 / c.close * 100
      { time := c.time, value := ap, color := getColor lowT medT highT ap } ::
        atrLoop lowT medT highT period atr2 rest

/-- Function `calculateATRPercent` from `src/types/trading.ts`: true ranges, first ATR
as a plain mean, Wilder smoothing afterwards, each point colored by
`getColor` of its own value. -/
def calculateATRPercent (candles : List Candle) (period : ℕ)
    (lowT medT highT : ℚ) : List ATRPercentPoint :=
  if candles.length < period + 1 then []
  else
    let trueRanges := List.zipWith (fun prev cur => trueRange prev.close cur) candles candles.tail
    let atr := (trueRanges.take period).sum / period
    let c0 := candles.getD period default
    let ap0 := atr / c0.close * 100
    { time := c0.time, value := ap0, color := getColor lowT medT highT ap0 } ::
      atrLoop lowT medT highT period atr
        ((trueRanges.drop period).zip (candles.drop (period + 1)))

/-- Record `HASignal` from `src/utils/haPatterns.ts`. -/
structure HASignal where
  symbol : String
  direction : PatternDirection
  timestamp : ℕ
  expiresAt : ℕ
deriving DecidableEq, Inhabited, Repr

/-- An emitted alert (one `playAlertSound` call plus one toast in
`useHAScanner.ts`). -/
structure Alert where
  symbol : String
  direction : PatternDirection
deriving DecidableEq, Inhabited, Repr

/-- Scanner state: the live signal list (`signals` React state)
and the dedupe key set (`alertedRef`, a JS `Set` modelled as a
duplicate-free-by-construction list). -/
structure ScannerState where
  signals : List HASignal
  alerted : List String
deriving DecidableEq, Inhabited, Repr

/-- Constant `CANDLE_PERIOD_MS = 15 * 60 * 1000` from `useHAScanner.ts`. -/
def CANDLE_PERIOD_MS : ℕ := 15 * 60 * 1000

/-- Constant `PRE_CLOSE_WINDOW_MS = 60 * 1000` from `useHAScanner.ts`. -/
def PRE_CLOSE_WINDOW_MS : ℕ := 60 * 1000

/-- Constant `SIGNAL_DURATION = 10 * 60 * 1000` from `useHAScanner.ts`. -/
def SIGNAL_DURATION : ℕ := 10 * 60 * 1000

/-- Underscore separator of the dedupe key template. -/
def keySep : String := "_"

/-- The string the JS template interpolates for a direction. -/
def dirString : PatternDirection → String
  | .bullish => "bullish"
  | .bearish => "bearish"

/-- The dedupe key `` `${symbol}_${lastCandleTime}_${direction}` ``. -/
def alertKey (symbol : String) (lastCandleTime : Int) (d : PatternDirection) : String :=
  symbol ++ keySep ++ toString lastCandleTime ++ keySep ++ dirString d

/-- The (key, direction) the candles fetched for a symbol would produce this cycle,
if any: the per symbol part of `scan` before the dedupe check. -/
def symbolSignal? (symbol : String) (candles : List Candle) :
    Option (String × PatternDirection) :=
  if candles.length < 5 then none
  else
    match detectHAReversal candles with
    | none => none
    | some direction =>
        let lastCandleTime := (candles.getD (candles.length - 1) default).time
        some (alertKey symbol lastCandleTime direction, direction)

/-- One iteration of the `for (const symbol of watchlist)` loop in `scan`:
skip on short history, no direction, or an already-seen key; otherwise record
the key, replace the signal held for that symbol, and emit one alert. -/
def processSymbol (now : ℕ) (st : ScannerState) (symbol : String)
    (candles : List Candle) : ScannerState × List Alert :=
  match symbolSignal? symbol candles with
  | none => (st, [])
  | some (key, direction) =>
      if st.alerted.contains key then (st, [])
      else
        let signal : HASignal :=
          { symbol := symbol, direction := direction
            timestamp := now, expiresAt := now + SIGNAL_DURATION }
        ({ signals := (st.signals.filter fun s => s.symbol ≠ symbol) ++ [signal]
           alerted := st.alerted ++ [key] },
         [{ symbol := symbol, direction := direction }])

/-- Symbol loop of `scan`, accumulating emitted alerts. -/
def scanSymbols (now : ℕ) (fetch : String → List Candle) :
    ScannerState × List Alert → List String → ScannerState × List Alert
  | acc, [] => acc
  | acc, sym :: rest =>
      let r := processSymbol now acc.1 sym (fetch sym)
      scanSymbols now fetch (r.1, acc.2 ++ r.2) rest

/-- One `scan` cycle of `useHAScanner.ts`.  Returns the new state, the alerts
emitted, and the symbols for which a candle fetch was performed.  The cycle is
a no-op unless enabled, the watchlist is nonempty, and `now` lies within the
last `PRE_CLOSE_WINDOW_MS` of the 15-minute candle; after the loop the dedupe
set is cleared wholesale once it exceeds 500 entries. -/
def scanCycle (enabled : Bool) (watchlist : List String)
    (fetch : String → List Candle) (now : ℕ) (st : ScannerState) :
    ScannerState × List Alert × List String :=
  if enabled = false ∨ watchlist = [] then (st, [], [])
  else
    let timeInCandle := now % CANDLE_PERIOD_MS
    let timeUntilClose := CANDLE_PERIOD_MS - timeInCandle
    if PRE_CLOSE_WINDOW_MS < timeUntilClose then (st, [], [])
    else
      let r := scanSymbols now fetch (st, []) watchlist
      if 500 < r.1.alerted.length then ({ r.1 with alerted := [] }, r.2, watchlist)
      else (r.1, r.2, watchlist)

/-- The 30-second expiry sweep: `signals.filter(s => s.expiresAt > now)`. -/
def sweepExpired (now : ℕ) (signals : List HASignal) : List HASignal :=
  signals.filter fun s => now < s.expiresAt

/-- Function `getSignal` from `useHAScanner.ts`: the first live (non-expired)
signal for the symbol. -/
def getSignal (signals : List HASignal) (now : ℕ) (symbol : String) :
    Option HASignal :=
  signals.find? fun s => s.symbol == symbol && decide (now < s.expiresAt)

/-- Degenerate test candle with all four prices equal. -/
def flatCandle (t : Int) (v : ℚ) : Candle := ⟨t, v, v, v, v, 0⟩

/-- Five-candle test series whose Heikin-Ashi tail is red, red, red, green. -/
def bullCandles : List Candle :=
  [flatCandle 0 10, flatCandle 1 8, flatCandle 2 6, flatCandle 3 4, flatCandle 4 10]

/-- Test symbol. -/
def symA : String := "AAAUSDT"

/-- Fetch stub returning `bullCandles` for every symbol. -/
def bullFetch : String → List Candle := fun _ => bullCandles

/-- Test dedupe-key set of 501 distinct keys, as a long scanner session
accumulates (keys are never removed individually). -/
def bigAlerted : List String := (List.range 501).map fun i => "K" ++ toString i

/-- The dedupe key `bullCandles` produces for `symA` (last candle time 4). -/
def bullKey : String := alertKey symA 4 PatternDirection.bullish

/-- Two-candle test series for the ATR% witness. -/
def atrWCandles : List Candle := [⟨0, 1, 2, 0, 1, 0⟩, ⟨1, 1, 2, 0, 1, 0⟩]

/-- Unfolding of `haFirst` on an explicit candle. -/
theorem haFirst_mk (t : Int) (o h l cl v : ℚ) :
    haFirst ⟨t, o, h, l, cl, v⟩ =
      ⟨t, (o + cl) / 2,
        max h (max ((o + cl) / 2) ((o + h + l + cl) / 4)),
        min l (min ((o + cl) / 2) ((o + h + l + cl) / 4)),
        (o + h + l + cl) / 4, v⟩ := rfl

/-- C1: the spec claims both `calculateSMA` and `calculateEMA` return an empty
sequence on histories shorter than the period and exactly one point at length
`period`.  The code violates the first half for `calculateEMA`: its seed loop
reads `candles[1]` of a 1-element array (a TypeError in JS, `none` here)
instead of returning an empty sequence.  `calculateSMA` behaves as claimed,
and both return exactly one point at length `== period`. -/
theorem calculateEMA_insufficient_history_fault :
    calculateSMA [flatCandle 0 1] 2 = some [] ∧
    calculateEMA [flatCandle 0 1] 2 = none ∧
    calculateSMA [flatCandle 0 1, flatCandle 1 2] 2 =
      some [{ time := 1, value := 3 / 2 }] ∧
    calculateEMA [flatCandle 0 1, flatCandle 1 2] 2 =
      some [{ time := 1, value := 3 / 2 }] := by
  refine ⟨?_, ?_, ?_, ?_⟩ <;>
    norm_num [calculateSMA, calculateEMA, emaLoop, flatCandle, List.range_succ,
      List.mapM.loop]

/-- C4: a scan cycle outside the pre-close window (more than 60 s before the
15-minute boundary) fetches nothing and leaves the state untouched; within
the window (and enabled, nonempty watchlist) it fetches every watchlist
symbol. -/
theorem scanCycle_preClose_gate (enabled : Bool) (watchlist : List String)
    (fetch : String → List Candle) (now : ℕ) (st : ScannerState) :
    (PRE_CLOSE_WINDOW_MS < CANDLE_PERIOD_MS - now % CANDLE_PERIOD_MS →
      scanCycle enabled watchlist fetch now st = (st, [], [])) ∧
    (enabled = true → watchlist ≠ [] →
      CANDLE_PERIOD_MS - now % CANDLE_PERIOD_MS ≤ PRE_CLOSE_WINDOW_MS →
      (scanCycle enabled watchlist fetch now st).2.2 = watchlist) := by
  constructor
  · intro hgate
    unfold scanCycle
    split
    · rfl
    · rw [if_pos hgate]
  · intro hen hwl hgate
    unfold scanCycle
    rw [if_neg (by simp [hen, hwl]), if_neg (not_lt.mpr hgate)]
    dsimp only
    split <;> rfl

/-- C4 witness: at `now = 839000` (61 s before the boundary) the cycle is a
no-op; at `now = 841000` (59 s before) it fetches the watchlist symbol. -/
theorem scanCycle_preClose_gate_witness :
    scanCycle true [symA] bullFetch 839000 ⟨[], []⟩ = (⟨[], []⟩, [], []) ∧
    (scanCycle true [symA] bullFetch 841000 ⟨[], []⟩).2.2 = [symA] :=
  ⟨(scanCycle_preClose_gate true [symA] bullFetch 839000 ⟨[], []⟩).1 (by decide),
   (scanCycle_preClose_gate true [symA] bullFetch 841000 ⟨[], []⟩).2 rfl
     (by decide) (by decide)⟩

/-- C7 counterexample: the Heikin-Ashi transform is not idempotent on the
single-candle series with open 0, high 4, low 0, close 0: the first pass puts
`haOpen = 0, haClose = 1`, the second moves `haOpen` to `1/2`. -/
theorem convertToHeikinAshi_single_not_idempotent :
    convertToHeikinAshi (convertToHeikinAshi [(⟨0, 0, 4, 0, 0, 0⟩ : Candle)]) ≠
      convertToHeikinAshi [(⟨0, 0, 4, 0, 0, 0⟩ : Candle)] := by
  norm_num [convertToHeikinAshi, haGo, haFirst, Candle.mk.injEq]

/-- C7 amended: the Heikin-Ashi transform is idempotent on a single-candle
series exactly when the raw candle satisfies `open + close = high + low`
(equivalently, when its Heikin-Ashi image has `haOpen = haClose`); in
general a second application moves `haOpen` to `(haOpen + haClose) / 2`. -/
theorem convertToHeikinAshi_single_idempotent_iff (c : Candle) :
    convertToHeikinAshi (convertToHeikinAshi [c]) = convertToHeikinAshi [c] ↔
      c.open_ + c.close = c.high + c.low := by
  obtain ⟨t, o, h, l, cl, v⟩ := c
  show [haFirst (haFirst ⟨t, o, h, l, cl, v⟩)] = [haFirst ⟨t, o, h, l, cl, v⟩] ↔
    o + cl = h + l
  constructor
  · intro heq
    have hopen := congrArg (fun lst : List Candle => (lst.headD default).open_) heq
    simp only [haFirst, List.headD_cons] at hopen
    linarith
  · intro hsum
    have hqw : (o + h + l + cl) / 4 = (o + cl) / 2 := by linarith
    have hfix : haFirst (⟨t, o, h, l, cl, v⟩ : Candle) =
        ⟨t, (o + cl) / 2, max h ((o + cl) / 2), min l ((o + cl) / 2),
          (o + cl) / 2, v⟩ := by
      rw [haFirst_mk, hqw, max_self, min_self]
    rw [hfix, haFirst_mk]
    have hmm : max h ((o + cl) / 2) + min l ((o + cl) / 2) =
        (o + cl) / 2 + (o + cl) / 2 := by
      rcases le_total h ((o + cl) / 2) with hh | hh
      · rw [max_eq_right hh, min_eq_right (by linarith)]
      · rw [max_eq_left hh, min_eq_left (by linarith)]
        linarith
    have hww : ((o + cl) / 2 + (o + cl) / 2) / 2 = (o + cl) / 2 := by ring
    have hcl : ((o + cl) / 2 + max h ((o + cl) / 2) + min l ((o + cl) / 2)
        + (o + cl) / 2) / 4 = (o + cl) / 2 := by linarith
    rw [hww, hcl, max_self, min_self, List.cons.injEq, Candle.mk.injEq]
    refine ⟨⟨rfl, rfl, ?_, ?_, rfl, rfl⟩, rfl⟩
    · exact max_eq_left (le_max_right _ _)
    · exact min_eq_left (min_le_right _ _)

/-- Every point `atrLoop` produces is colored by `getColor` of its value. -/
theorem atrLoop_color (lowT medT highT : ℚ) (period : ℕ) :
    ∀ (l : List (ℚ × Candle)) (atr : ℚ) (pt : ATRPercentPoint),
      pt ∈ atrLoop lowT medT highT period atr l →
      pt.color = getColor lowT medT highT pt.value := by
  intro l
  induction l with
  | nil =>
      intro atr pt hpt
      simp [atrLoop] at hpt
  | cons hd tl ih =>
      intro atr pt hpt
      obtain ⟨tr, c⟩ := hd
      simp only [atrLoop, List.mem_cons] at hpt
      rcases hpt with rfl | hpt
      · rfl
      · exact ih _ _ hpt

/-- C8: the ATR% color is a pure step function of the value and the three
thresholds, first match wins in source order (`< low` green, `< medium`
yellow, `< high` orange, else red); each boundary value lands in the next
bucket up, as witnessed at the seven sample values of the spec. -/
theorem calculateATRPercent_color_spec (candles : List Candle) (period : ℕ)
    (lowT medT highT : ℚ) :
    (∀ pt ∈ calculateATRPercent candles period lowT medT highT,
        pt.color = getColor lowT medT highT pt.value) ∧
    (getColor (1/2) (3/2) 3 (49/100) = colorGreen ∧
     getColor (1/2) (3/2) 3 (1/2) = colorYellow ∧
     getColor (1/2) (3/2) 3 (149/100) = colorYellow ∧
     getColor (1/2) (3/2) 3 (3/2) = colorOrange ∧
     getColor (1/2) (3/2) 3 (299/100) = colorOrange ∧
     getColor (1/2) (3/2) 3 3 = colorRed ∧
     getColor (1/2) (3/2) 3 10 = colorRed) := by
  constructor
  · intro pt hpt
    unfold calculateATRPercent at hpt
    split at hpt
    · simp at hpt
    · simp only [List.mem_cons] at hpt
      rcases hpt with rfl | hpt
      · rfl
      · exact atrLoop_color _ _ _ _ _ _ _ hpt
  · refine ⟨?_, ?_, ?_, ?_, ?_, ?_, ?_⟩ <;> norm_num [getColor]

/-- C8 witness: the first ATR% point of a concrete series carries exactly the
color `getColor` assigns to its value. -/
theorem calculateATRPercent_color_spec_witness :
    (⟨1, 200, colorRed⟩ : ATRPercentPoint).color =
      getColor (1/2) (3/2) 3 (⟨1, 200, colorRed⟩ : ATRPercentPoint).value :=
  (calculateATRPercent_color_spec atrWCandles 1 (1/2) (3/2) 3).1 _
    (by norm_num [calculateATRPercent, atrWCandles, trueRange, atrLoop, getColor])

/-- The Heikin-Ashi loop preserves length. -/
theorem haGo_length (prev : Candle) (l : List Candle) :
    (haGo prev l).length = l.length := by
  induction l generalizing prev with
  | nil => rfl
  | cons c rest ih => simp [haGo, ih]

/-- The Heikin-Ashi transform preserves length. -/
theorem convertToHeikinAshi_length (l : List Candle) :
    (convertToHeikinAshi l).length = l.length := by
  cases l with
  | nil => rfl
  | cons c rest => simp [convertToHeikinAshi, haGo_length]

/-- Case analysis of the two pattern conditions in `detectHAReversal`. -/
theorem haPatternCases (c1 c2 c3 c4 : Candle) :
    ((if isRed c1 && isRed c2 && isRed c3 && isGreen c4 then
        some PatternDirection.bullish
      else if isGreen c1 && isGreen c2 && isGreen c3 && isRed c4 then
        some PatternDirection.bearish
      else none) = some PatternDirection.bullish ↔
        (c1.close < c1.open_ ∧ c2.close < c2.open_ ∧ c3.close < c3.open_ ∧
         c4.open_ < c4.close)) ∧
    ((if isRed c1 && isRed c2 && isRed c3 && isGreen c4 then
        some PatternDirection.bullish
      else if isGreen c1 && isGreen c2 && isGreen c3 && isRed c4 then
        some PatternDirection.bearish
      else none) = some PatternDirection.bearish ↔
        (c1.open_ < c1.close ∧ c2.open_ < c2.close ∧ c3.open_ < c3.close ∧
         c4.close < c4.open_)) ∧
    ((if isRed c1 && isRed c2 && isRed c3 && isGreen c4 then
        some PatternDirection.bullish
      else if isGreen c1 && isGreen c2 && isGreen c3 && isRed c4 then
        some PatternDirection.bearish
      else none) = none ↔
        (¬(c1.close < c1.open_ ∧ c2.close < c2.open_ ∧ c3.close < c3.open_ ∧
           c4.open_ < c4.close) ∧
         ¬(c1.open_ < c1.close ∧ c2.open_ < c2.close ∧ c3.open_ < c3.close ∧
           c4.close < c4.open_))) := by
  by_cases hRA : c1.close < c1.open_ ∧ c2.close < c2.open_ ∧ c3.close < c3.open_ ∧
      c4.open_ < c4.close
  · have hA : (isRed c1 && isRed c2 && isRed c3 && isGreen c4) = true := by
      simp only [isRed, isGreen, Bool.and_eq_true, decide_eq_true_eq]
      tauto
    rw [if_pos hA]
    have hnRB : ¬(c1.open_ < c1.close ∧ c2.open_ < c2.close ∧ c3.open_ < c3.close ∧
        c4.close < c4.open_) := fun hRB => absurd hRB.1 (lt_asymm hRA.1)
    exact ⟨iff_of_true rfl hRA, iff_of_false (by simp) hnRB,
      iff_of_false (by simp) fun hn => hn.1 hRA⟩
  · have hnA : ¬((isRed c1 && isRed c2 && isRed c3 && isGreen c4) = true) := by
      simp only [isRed, isGreen, Bool.and_eq_true, decide_eq_true_eq]
      tauto
    rw [if_neg hnA]
    by_cases hRB : c1.open_ < c1.close ∧ c2.open_ < c2.close ∧ c3.open_ < c3.close ∧
        c4.close < c4.open_
    · have hB : (isGreen c1 && isGreen c2 && isGreen c3 && isRed c4) = true := by
        simp only [isRed, isGreen, Bool.and_eq_true, decide_eq_true_eq]
        tauto
      rw [if_pos hB]
      exact ⟨iff_of_false (by simp) hRA, iff_of_true rfl hRB,
        iff_of_false (by simp) fun hn => hn.2 hRB⟩
    · have hnB : ¬((isGreen c1 && isGreen c2 && isGreen c3 && isRed c4) = true) := by
        simp only [isRed, isGreen, Bool.and_eq_true, decide_eq_true_eq]
        tauto
      rw [if_neg hnB]
      exact ⟨iff_of_false (by simp) hRA, iff_of_false (by simp) hRB,
        iff_of_true rfl ⟨hRA, hRB⟩⟩

/-- C2: `detectHAReversal` returns none on fewer than 5 raw candles; otherwise,
with `c1, c2, c3, c4` the last four candles of the Heikin-Ashi transform of
the full input (oldest to newest), it returns bullish exactly when `c1..c3`
are strictly red and `c4` strictly green, bearish exactly in the mirrored
case, none exactly otherwise, and in particular a doji (`close = open`) in
any of the four slots forces none. -/
theorem detectHAReversal_spec (candles : List Candle) :
    (candles.length < 5 → detectHAReversal candles = none) ∧
    (∀ c1 c2 c3 c4 : Candle,
      (convertToHeikinAshi candles).drop (candles.length - 4) = [c1, c2, c3, c4] →
      5 ≤ candles.length →
      ((detectHAReversal candles = some PatternDirection.bullish ↔
          (c1.close < c1.open_ ∧ c2.close < c2.open_ ∧ c3.close < c3.open_ ∧
           c4.open_ < c4.close)) ∧
       (detectHAReversal candles = some PatternDirection.bearish ↔
          (c1.open_ < c1.close ∧ c2.open_ < c2.close ∧ c3.open_ < c3.close ∧
           c4.close < c4.open_)) ∧
       (detectHAReversal candles = none ↔
          (¬(c1.close < c1.open_ ∧ c2.close < c2.open_ ∧ c3.close < c3.open_ ∧
             c4.open_ < c4.close) ∧
           ¬(c1.open_ < c1.close ∧ c2.open_ < c2.close ∧ c3.open_ < c3.close ∧
             c4.close < c4.open_))) ∧
       ((c1.close = c1.open_ ∨ c2.close = c2.open_ ∨ c3.close = c3.open_ ∨
         c4.close = c4.open_) → detectHAReversal candles = none))) := by
  constructor
  · intro h
    unfold detectHAReversal
    rw [if_pos h]
  · intro c1 c2 c3 c4 hdrop hlen
    have hget : ∀ i : ℕ,
        (convertToHeikinAshi candles)[candles.length - 4 + i]? = [c1, c2, c3, c4][i]? := by
      intro i
      rw [← List.getElem?_drop, hdrop]
    have h1 : (convertToHeikinAshi candles).getD (candles.length - 4) default = c1 := by
      rw [List.getD_eq_getElem?_getD,
        show candles.length - 4 = candles.length - 4 + 0 from rfl, hget 0]
      rfl
    have h2 : (convertToHeikinAshi candles).getD (candles.length - 3) default = c2 := by
      rw [List.getD_eq_getElem?_getD,
        show candles.length - 3 = candles.length - 4 + 1 by omega, hget 1]
      rfl
    have h3 : (convertToHeikinAshi candles).getD (candles.length - 2) default = c3 := by
      rw [List.getD_eq_getElem?_getD,
        show candles.length - 2 = candles.length - 4 + 2 by omega, hget 2]
      rfl
    have h4 : (convertToHeikinAshi candles).getD (candles.length - 1) default = c4 := by
      rw [List.getD_eq_getElem?_getD,
        show candles.length - 1 = candles.length - 4 + 3 by omega, hget 3]
      rfl
    unfold detectHAReversal
    rw [if_neg (not_lt.mpr hlen)]
    dsimp only
    rw [convertToHeikinAshi_length, h1, h2, h3, h4]
    refine ⟨(haPatternCases c1 c2 c3 c4).1, (haPatternCases c1 c2 c3 c4).2.1,
      (haPatternCases c1 c2 c3 c4).2.2, ?_⟩
    intro hd
    rw [(haPatternCases c1 c2 c3 c4).2.2]
    constructor
    · rintro ⟨r1, r2, r3, g4⟩
      rcases hd with d | d | d | d
      · exact absurd d (ne_of_lt r1)
      · exact absurd d (ne_of_lt r2)
      · exact absurd d (ne_of_lt r3)
      · exact absurd d (ne_of_gt g4)
    · rintro ⟨g1, g2, g3, r4⟩
      rcases hd with d | d | d | d
      · exact absurd d (ne_of_gt g1)
      · exact absurd d (ne_of_gt g2)
      · exact absurd d (ne_of_gt g3)
      · exact absurd d (ne_of_lt r4)

/-- C2 witness: on the concrete series `bullCandles` (flat closes 10, 8, 6,
4, 10) the last four Heikin-Ashi candles are red, red, red, green and the
detector fires bullish. -/
theorem detectHAReversal_spec_witness :
    detectHAReversal bullCandles = some PatternDirection.bullish :=
  (((detectHAReversal_spec bullCandles).2
      ⟨1, 10, 10, 8, 8, 0⟩ ⟨2, 9, 9, 6, 6, 0⟩ ⟨3, 15/2, 15/2, 4, 4, 0⟩
      ⟨4, 23/4, 10, 23/4, 10, 0⟩
      (by norm_num [convertToHeikinAshi, haGo, haFirst, haNext, bullCandles,
        flatCandle])
      (by norm_num [bullCandles, flatCandle])).1).mpr (by norm_num)

/-- The `avgLoss == 0` fallback (`RS = 100`) yields `100 - 100/101`. -/
theorem rsiStep_avgLoss_zero (avgGain : ℚ) : rsiStep avgGain 0 = 10000 / 101 := by
  unfold rsiStep
  norm_num

/-- With zero average gain and a positive average loss, the RSI sample is
exactly 0. -/
theorem rsiStep_zero_gain (al : ℚ) (h : 0 < al) : rsiStep 0 al = 0 := by
  unfold rsiStep
  rw [if_neg (ne_of_gt h)]
  norm_num

/-- An RSI sample from nonnegative averages lies in `[0, 100)`. -/
theorem rsiStep_bounds (avgGain avgLoss : ℚ) (hg : 0 ≤ avgGain) (hl : 0 ≤ avgLoss) :
    0 ≤ rsiStep avgGain avgLoss ∧ rsiStep avgGain avgLoss < 100 := by
  unfold rsiStep
  dsimp only
  split_ifs with h
  · norm_num
  · have hrs : 0 ≤ avgGain / avgLoss := div_nonneg hg hl
    have h1 : (0 : ℚ) < 1 + avgGain / avgLoss := by linarith
    have hmul := mul_nonneg (by norm_num : (0 : ℚ) ≤ 100) hrs
    constructor
    · have hle : 100 / (1 + avgGain / avgLoss) ≤ 100 := by
        rw [div_le_iff₀ h1]
        linarith
      linarith
    · have hpos : 0 < 100 / (1 + avgGain / avgLoss) :=
        div_pos (by norm_num) h1
      linarith

/-- Every entry of the `gains` array is nonnegative. -/
theorem rsiGains_nonneg (candles : List Candle) :
    ∀ x ∈ rsiGains candles, 0 ≤ x := by
  intro x hx
  obtain ⟨c, -, rfl⟩ := List.mem_map.1 hx
  split_ifs with h
  · exact le_of_lt h
  · exact le_refl 0

/-- Every entry of the `losses` array is nonnegative. -/
theorem rsiLosses_nonneg (candles : List Candle) :
    ∀ x ∈ rsiLosses candles, 0 ≤ x := by
  intro x hx
  obtain ⟨c, -, rfl⟩ := List.mem_map.1 hx
  split_ifs with h
  · exact abs_nonneg c
  · exact le_refl 0

/-- With `period ≥ 1`, a Wilder update of nonnegative averages over
nonnegative gain/loss pairs keeps every produced RSI value in `[0, 100)`. -/
theorem rsiLoop_bounds (period : ℕ) (hp : 1 ≤ period) :
    ∀ (l : List (ℚ × ℚ × Candle)) (ag al : ℚ), 0 ≤ ag → 0 ≤ al →
      (∀ x ∈ l, 0 ≤ x.1 ∧ 0 ≤ x.2.1) →
      ∀ pt ∈ rsiLoop period ag al l, 0 ≤ pt.value ∧ pt.value < 100 := by
  intro l
  induction l with
  | nil =>
      intro ag al _ _ _ pt hpt
      simp [rsiLoop] at hpt
  | cons hd tl ih =>
      intro ag al hag hal hmem pt hpt
      obtain ⟨g, ls, c⟩ := hd
      have hp1 : (1 : ℚ) ≤ (period : ℚ) := by exact_mod_cast hp
      have hg0 : 0 ≤ g := (hmem _ (List.mem_cons_self _ _)).1
      have hls0 : 0 ≤ ls := (hmem _ (List.mem_cons_self _ _)).2
      have hag2 : 0 ≤ (ag * ((period : ℚ) - 1) + g) / period :=
        div_nonneg (by nlinarith) (by linarith)
      have hal2 : 0 ≤ (al * ((period : ℚ) - 1) + ls) / period :=
        div_nonneg (by nlinarith) (by linarith)
      simp only [rsiLoop, List.mem_cons] at hpt
      rcases hpt with rfl | hpt
      · exact rsiStep_bounds _ _ hag2 hal2
      · exact ih _ _ hag2 hal2 (fun x hx => hmem x (List.mem_cons_of_mem _ hx))
          pt hpt

/-- C10: for every period at least 1, every value `calculateRSI` returns lies
in the half-open interval `[0, 100)` - it is never 100, and the
`avgLoss == 0` fallback produces exactly `100 - 100/101 = 10000/101`. -/
theorem calculateRSI_range (candles : List Candle) (period : ℕ)
    (hp : 1 ≤ period) :
    (∀ pt ∈ calculateRSI candles period, 0 ≤ pt.value ∧ pt.value < 100) ∧
    (∀ avgGain : ℚ, rsiStep avgGain 0 = 10000 / 101) := by
  refine ⟨?_, rsiStep_avgLoss_zero⟩
  intro pt hpt
  unfold calculateRSI at hpt
  split at hpt
  · simp at hpt
  · have hag : 0 ≤ ((rsiGains candles).take period).sum / period :=
      div_nonneg
        (List.sum_nonneg fun x hx =>
          rsiGains_nonneg candles x (List.mem_of_mem_take hx))
        (by positivity)
    have hal : 0 ≤ ((rsiLosses candles).take period).sum / period :=
      div_nonneg
        (List.sum_nonneg fun x hx =>
          rsiLosses_nonneg candles x (List.mem_of_mem_take hx))
        (by positivity)
    simp only [List.mem_cons] at hpt
    rcases hpt with rfl | hpt
    · exact rsiStep_bounds _ _ hag hal
    · refine rsiLoop_bounds period hp _ _ _ hag hal ?_ pt hpt
      intro x hx
      obtain ⟨hx1, hx2⟩ := List.of_mem_zip hx
      obtain ⟨hx21, -⟩ := List.of_mem_zip hx2
      exact ⟨rsiGains_nonneg candles _ (List.mem_of_mem_drop hx1),
        rsiLosses_nonneg candles _ (List.mem_of_mem_drop hx21)⟩

/-- C10 witness: on a concrete rising two-candle series with period 1, the
single RSI value (the fallback value `10000/101`) lies in `[0, 100)`, and the
fallback equation holds at `avgGain = 5`. -/
theorem calculateRSI_range_witness :
    (0 ≤ ((calculateRSI [flatCandle 0 1, flatCandle 1 2] 1).headD default).value ∧
      ((calculateRSI [flatCandle 0 1, flatCandle 1 2] 1).headD default).value < 100) ∧
    rsiStep 5 0 = 10000 / 101 :=
  ⟨(calculateRSI_range [flatCandle 0 1, flatCandle 1 2] 1 (le_refl 1)).1 _
      (by norm_num [calculateRSI, rsiGains, rsiLosses, rsiChanges, rsiLoop,
        flatCandle, rsiStep]),
   (calculateRSI_range [flatCandle 0 1, flatCandle 1 2] 1 (le_refl 1)).2 5⟩

/-- Every delta in the `changes` array comes from an adjacent candle pair, so
a chain condition on the series constrains every delta. -/
theorem rsiChanges_mem_of_chain (R : Candle → Candle → Prop) :
    ∀ (l : List Candle), List.Chain' R l →
      ∀ x ∈ rsiChanges l, ∃ a b, R a b ∧ x = b.close - a.close := by
  intro l
  induction l with
  | nil =>
      intro _ x hx
      simp [rsiChanges] at hx
  | cons a rest ih =>
      cases rest with
      | nil =>
          intro _ x hx
          simp [rsiChanges] at hx
      | cons b rest2 =>
          intro hchain x hx
          rw [List.chain'_cons] at hchain
          simp only [rsiChanges, List.tail_cons, List.zipWith_cons_cons,
            List.mem_cons] at hx
          rcases hx with rfl | hx
          · exact ⟨a, b, hchain.1, rfl⟩
          · exact ih hchain.2 x (by simpa [rsiChanges] using hx)

/-- On a strictly falling series every gain is 0. -/
theorem rsiGains_zero_of_falling (candles : List Candle)
    (h : List.Chain' (fun a b => b.close < a.close) candles) :
    ∀ x ∈ rsiGains candles, x = 0 := by
  intro x hx
  unfold rsiGains at hx
  obtain ⟨c, hc, rfl⟩ := List.mem_map.1 hx
  obtain ⟨a, b, hR, rfl⟩ := rsiChanges_mem_of_chain _ candles h c hc
  rw [if_neg (not_lt.mpr (by linarith))]

/-- On a strictly falling series every loss is strictly positive. -/
theorem rsiLosses_pos_of_falling (candles : List Candle)
    (h : List.Chain' (fun a b => b.close < a.close) candles) :
    ∀ x ∈ rsiLosses candles, 0 < x := by
  intro x hx
  unfold rsiLosses at hx
  obtain ⟨c, hc, rfl⟩ := List.mem_map.1 hx
  obtain ⟨a, b, hR, rfl⟩ := rsiChanges_mem_of_chain _ candles h c hc
  rw [if_pos (by linarith)]
  exact abs_pos.2 (by linarith)

/-- On a strictly rising series every loss is 0. -/
theorem rsiLosses_zero_of_rising (candles : List Candle)
    (h : List.Chain' (fun a b => a.close < b.close) candles) :
    ∀ x ∈ rsiLosses candles, x = 0 := by
  intro x hx
  unfold rsiLosses at hx
  obtain ⟨c, hc, rfl⟩ := List.mem_map.1 hx
  obtain ⟨a, b, hR, rfl⟩ := rsiChanges_mem_of_chain _ candles h c hc
  rw [if_neg (not_lt.mpr (by linarith))]

/-- With zero average gain (kept zero by Wilder smoothing over zero gains)
and positive losses, every RSI value the loop produces is exactly 0. -/
theorem rsiLoop_zero_gain (period : ℕ) (hp : 1 ≤ period) :
    ∀ (l : List (ℚ × ℚ × Candle)) (al : ℚ), 0 < al →
      (∀ x ∈ l, x.1 = 0 ∧ 0 < x.2.1) →
      ∀ pt ∈ rsiLoop period 0 al l, pt.value = 0 := by
  intro l
  induction l with
  | nil =>
      intro al _ _ pt hpt
      simp [rsiLoop] at hpt
  | cons hd tl ih =>
      intro al hal hmem pt hpt
      obtain ⟨g, ls, c⟩ := hd
      have hg : g = 0 := (hmem _ (List.mem_cons_self _ _)).1
      have hls : 0 < ls := (hmem _ (List.mem_cons_self _ _)).2
      have hp1 : (1 : ℚ) ≤ (period : ℚ) := by exact_mod_cast hp
      subst hg
      have hzero : ((0 : ℚ) * ((period : ℚ) - 1) + 0) / period = 0 := by simp
      have halpos : 0 < (al * ((period : ℚ) - 1) + ls) / period :=
        div_pos (by nlinarith) (by linarith)
      simp only [rsiLoop, List.mem_cons] at hpt
      rcases hpt with rfl | hpt
      · show rsiStep _ _ = 0
        rw [hzero]
        exact rsiStep_zero_gain _ halpos
      · rw [hzero] at hpt
        exact ih _ halpos (fun x hx => hmem x (List.mem_cons_of_mem _ hx)) pt hpt

/-- With zero average loss (kept zero by Wilder smoothing over zero losses),
every RSI value the loop produces is the fallback value `10000/101`. -/
theorem rsiLoop_zero_loss (period : ℕ) :
    ∀ (l : List (ℚ × ℚ × Candle)) (ag : ℚ),
      (∀ x ∈ l, x.2.1 = 0) →
      ∀ pt ∈ rsiLoop period ag 0 l, pt.value = 10000 / 101 := by
  intro l
  induction l with
  | nil =>
      intro ag _ pt hpt
      simp [rsiLoop] at hpt
  | cons hd tl ih =>
      intro ag hmem pt hpt
      obtain ⟨g, ls, c⟩ := hd
      have hls : ls = 0 := hmem _ (List.mem_cons_self _ _)
      subst hls
      have hzero : ((0 : ℚ) * ((period : ℚ) - 1) + 0) / period = 0 := by simp
      simp only [rsiLoop, List.mem_cons] at hpt
      rcases hpt with rfl | hpt
      · show rsiStep _ _ = 10000 / 101
        rw [hzero]
        exact rsiStep_avgLoss_zero _
      · rw [hzero] at hpt
        exact ih _ (fun x hx => hmem x (List.mem_cons_of_mem _ hx)) pt hpt

/-- C6 counterexample: on the strictly falling two-candle series with closes
2, 1 and period 1, `calculateRSI` returns the value exactly 0 (avgGain is 0,
avgLoss is 1, so `RS = 0` and `RSI = 100 - 100/1 = 0`), refuting the claim
that falling series only approach but never reach 0. -/
theorem calculateRSI_falling_exactly_zero :
    ((calculateRSI [flatCandle 0 2, flatCandle 1 1] 1).map IndicatorPoint.value
      = [0]) ∧
    (flatCandle 1 1).close < (flatCandle 0 2).close := by
  constructor
  · norm_num [calculateRSI, rsiGains, rsiLosses, rsiChanges, rsiLoop, rsiStep,
      flatCandle]
  · norm_num [flatCandle]

/-- C6 amended: for every period at least 1, on a strictly falling close
series every value `calculateRSI` returns is exactly 0, and on a strictly
rising series every value is exactly `10000/101` (the `avgLoss == 0` fallback
`RS = 100`, strictly below 100). -/
theorem calculateRSI_monotone_closes (candles : List Candle) (period : ℕ)
    (hp : 1 ≤ period) :
    (List.Chain' (fun a b => b.close < a.close) candles →
      ∀ pt ∈ calculateRSI candles period, pt.value = 0) ∧
    (List.Chain' (fun a b => a.close < b.close) candles →
      ∀ pt ∈ calculateRSI candles period, pt.value = 10000 / 101) := by
  constructor
  · intro hchain pt hpt
    unfold calculateRSI at hpt
    split at hpt
    · simp at hpt
    · rename_i hlen
      have hgains := rsiGains_zero_of_falling candles hchain
      have hlosses := rsiLosses_pos_of_falling candles hchain
      have hag : ((rsiGains candles).take period).sum / period = 0 := by
        rw [List.sum_eq_zero fun x hx => hgains x (List.mem_of_mem_take hx)]
        simp
      have htlen : ((rsiLosses candles).take period).length = period := by
        rw [List.length_take]
        simp only [rsiLosses, rsiChanges, List.length_map, List.length_zipWith,
          List.length_tail]
        omega
      have hppos : (0 : ℚ) < period := by
        have : 0 < period := hp
        exact_mod_cast this
      have hal : 0 < ((rsiLosses candles).take period).sum / period := by
        apply div_pos _ hppos
        apply List.sum_pos
        · intro x hx
          exact hlosses x (List.mem_of_mem_take hx)
        · intro hnil
          rw [hnil] at htlen
          simp at htlen
          omega
      simp only [List.mem_cons] at hpt
      rcases hpt with rfl | hpt
      · show rsiStep _ _ = 0
        rw [hag]
        exact rsiStep_zero_gain _ hal
      · rw [hag] at hpt
        refine rsiLoop_zero_gain period hp _ _ hal ?_ pt hpt
        intro x hx
        obtain ⟨hx1, hx2⟩ := List.of_mem_zip hx
        obtain ⟨hx21, -⟩ := List.of_mem_zip hx2
        exact ⟨hgains _ (List.mem_of_mem_drop hx1),
          hlosses _ (List.mem_of_mem_drop hx21)⟩
  · intro hchain pt hpt
    unfold calculateRSI at hpt
    split at hpt
    · simp at hpt
    · have hlosses := rsiLosses_zero_of_rising candles hchain
      have hal : ((rsiLosses candles).take period).sum / period = 0 := by
        rw [List.sum_eq_zero fun x hx => hlosses x (List.mem_of_mem_take hx)]
        simp
      simp only [List.mem_cons] at hpt
      rcases hpt with rfl | hpt
      · show rsiStep _ _ = 10000 / 101
        rw [hal]
        exact rsiStep_avgLoss_zero _
      · rw [hal] at hpt
        refine rsiLoop_zero_loss period _ _ ?_ pt hpt
        intro x hx
        obtain ⟨-, hx2⟩ := List.of_mem_zip hx
        obtain ⟨hx21, -⟩ := List.of_mem_zip hx2
        exact hlosses _ (List.mem_of_mem_drop hx21)

/-- C6 witness: falling closes 2, 1 give the RSI value exactly 0; rising
closes 1, 2 give exactly `10000/101`. -/
theorem calculateRSI_monotone_closes_witness :
    ((calculateRSI [flatCandle 0 2, flatCandle 1 1] 1).headD default).value = 0 ∧
    ((calculateRSI [flatCandle 0 1, flatCandle 1 2] 1).headD default).value =
      10000 / 101 :=
  ⟨(calculateRSI_monotone_closes [flatCandle 0 2, flatCandle 1 1] 1
      (le_refl 1)).1
      (by norm_num [List.chain'_cons, flatCandle]) _
      (by norm_num [calculateRSI, rsiGains, rsiLosses, rsiChanges, rsiLoop,
        rsiStep, flatCandle]),
   (calculateRSI_monotone_closes [flatCandle 0 1, flatCandle 1 2] 1
      (le_refl 1)).2
      (by norm_num [List.chain'_cons, flatCandle]) _
      (by norm_num [calculateRSI, rsiGains, rsiLosses, rsiChanges, rsiLoop,
        rsiStep, flatCandle])⟩

/-- Seeding a `max`-fold never goes below the seed. -/
theorem le_foldl_max (l : List ℚ) : ∀ a : ℚ, a ≤ l.foldl max a := by
  induction l with
  | nil => intro a; exact le_refl a
  | cons x t ih => intro a; exact le_trans (le_max_left a x) (ih (max a x))

/-- A `max`-fold dominates every list element. -/
theorem mem_le_foldl_max (l : List ℚ) : ∀ (a x : ℚ), x ∈ l → x ≤ l.foldl max a := by
  induction l with
  | nil =>
      intro a x hx
      simp at hx
  | cons y t ih =>
      intro a x hx
      rcases List.mem_cons.1 hx with rfl | hx
      · exact le_trans (le_max_right a x) (le_foldl_max t (max a x))
      · exact ih (max a y) x hx

/-- Seeding a `min`-fold never goes above the seed. -/
theorem foldl_min_le (l : List ℚ) : ∀ a : ℚ, l.foldl min a ≤ a := by
  induction l with
  | nil => intro a; exact le_refl a
  | cons x t ih => intro a; exact le_trans (ih (min a x)) (min_le_left a x)

/-- A `min`-fold is below every list element. -/
theorem foldl_min_le_mem (l : List ℚ) : ∀ (a x : ℚ), x ∈ l → l.foldl min a ≤ x := by
  induction l with
  | nil =>
      intro a x hx
      simp at hx
  | cons y t ih =>
      intro a x hx
      rcases List.mem_cons.1 hx with rfl | hx
      · exact le_trans (foldl_min_le t (min a x)) (min_le_right a x)
      · exact ih (min a y) x hx

/-- For a nonempty window, `highestHigh` dominates the high of the window
candle at offset 0, i.e. candle index `i` itself. -/
theorem stochHH_ge (candles : List Candle) (kPeriod i : ℕ) (hk : 1 ≤ kPeriod) :
    (candles.getD i default).high ≤ stochHH candles kPeriod i := by
  unfold stochHH
  apply mem_le_foldl_max
  unfold windowHighs
  refine List.mem_map.2 ⟨0, List.mem_range.2 (by omega), ?_⟩
  rw [Nat.sub_zero]

/-- For a nonempty window, `lowestLow` is below the low of candle `i`. -/
theorem stochLL_le (candles : List Candle) (kPeriod i : ℕ) (hk : 1 ≤ kPeriod) :
    stochLL candles kPeriod i ≤ (candles.getD i default).low := by
  unfold stochLL
  apply foldl_min_le_mem
  unfold windowLows
  refine List.mem_map.2 ⟨0, List.mem_range.2 (by omega), ?_⟩
  rw [Nat.sub_zero]

/-- A raw `%K` value over well-formed candles lies in `[0, 100]`. -/
theorem stochRawK_bounds (candles : List Candle) (kPeriod i : ℕ)
    (hk : 1 ≤ kPeriod) (hi : i < candles.length)
    (hwf : ∀ c ∈ candles, c.low ≤ c.close ∧ c.close ≤ c.high) :
    0 ≤ stochRawK candles kPeriod i ∧ stochRawK candles kPeriod i ≤ 100 := by
  have hmem : candles.getD i default ∈ candles := by
    rw [List.getD_eq_getElem candles default hi]
    exact List.getElem_mem hi
  obtain ⟨hlc, hch⟩ := hwf _ hmem
  have hhh := stochHH_ge candles kPeriod i hk
  have hll := stochLL_le candles kPeriod i hk
  unfold stochRawK
  dsimp only
  split_ifs with h
  · norm_num
  · have hrange : 0 < stochHH candles kPeriod i - stochLL candles kPeriod i :=
      lt_of_le_of_ne (by linarith) (Ne.symm h)
    constructor
    · exact mul_nonneg (div_nonneg (by linarith) hrange.le) (by norm_num)
    · rw [div_mul_eq_mul_div, div_le_iff₀ hrange]
      linarith

/-- Every entry of the `rawK` array lies in `[0, 100]`. -/
theorem stochRawKList_bounds (candles : List Candle) (kPeriod : ℕ)
    (hk : 1 ≤ kPeriod)
    (hwf : ∀ c ∈ candles, c.low ≤ c.close ∧ c.close ≤ c.high) :
    ∀ x ∈ stochRawKList candles kPeriod, 0 ≤ x ∧ x ≤ 100 := by
  intro x hx
  unfold stochRawKList at hx
  obtain ⟨i, hi, rfl⟩ := List.mem_map.1 hx
  exact stochRawK_bounds candles kPeriod i hk
    (List.mem_range.1 (List.mem_of_mem_drop hi)) hwf

/-- An SMA window read back by `getD` from a list of values in `[0, 100]`
stays in `[0, 100]`. -/
theorem smooth_avg_bounds (xs : List ℚ) (m i : ℕ) (hm : 1 ≤ m)
    (hi : i < xs.length) (hxs : ∀ x ∈ xs, 0 ≤ x ∧ x ≤ 100) :
    0 ≤ (((List.range m).map fun j => xs.getD (i - j) 0).sum) / m ∧
    (((List.range m).map fun j => xs.getD (i - j) 0).sum) / m ≤ 100 := by
  have hmem : ∀ j : ℕ, xs.getD (i - j) 0 ∈ xs := by
    intro j
    have hij : i - j < xs.length := lt_of_le_of_lt (Nat.sub_le i j) hi
    rw [List.getD_eq_getElem xs 0 hij]
    exact List.getElem_mem hij
  have hmpos : (0 : ℚ) < m := by
    have h0 : 0 < m := hm
    exact_mod_cast h0
  constructor
  · apply div_nonneg _ hmpos.le
    apply List.sum_nonneg
    intro x hx
    obtain ⟨j, -, rfl⟩ := List.mem_map.1 hx
    exact (hxs _ (hmem j)).1
  · rw [div_le_iff₀ hmpos]
    have hsum : (((List.range m).map fun j => xs.getD (i - j) 0)).sum ≤
        (((List.range m).map fun j => xs.getD (i - j) 0)).length • (100 : ℚ) := by
      apply List.sum_le_card_nsmul
      intro x hx
      obtain ⟨j, -, rfl⟩ := List.mem_map.1 hx
      exact (hxs _ (hmem j)).2
    rw [List.length_map, List.length_range, nsmul_eq_mul] at hsum
    linarith

/-- Every entry of the `smoothedK` array lies in `[0, 100]`. -/
theorem stochSmoothedK_bounds (candles : List Candle) (kPeriod smooth : ℕ)
    (hk : 1 ≤ kPeriod) (hs : 1 ≤ smooth)
    (hwf : ∀ c ∈ candles, c.low ≤ c.close ∧ c.close ≤ c.high) :
    ∀ x ∈ stochSmoothedK candles kPeriod smooth, 0 ≤ x ∧ x ≤ 100 := by
  intro x hx
  unfold stochSmoothedK at hx
  obtain ⟨i, hi, rfl⟩ := List.mem_map.1 hx
  exact smooth_avg_bounds _ smooth i hs
    (List.mem_range.1 (List.mem_of_mem_drop hi))
    (stochRawKList_bounds candles kPeriod hk hwf)

/-- C9: for well-formed candles (`low ≤ close ≤ high`) and window parameters
at least 1, every `%K` value `calculateStochastic` returns lies in `[0, 100]`,
and a window whose `highestHigh` equals its `lowestLow` contributes the raw
`%K` fallback value 50 instead of a division by zero. -/
theorem calculateStochastic_k_bounds (candles : List Candle)
    (kPeriod dPeriod smooth : ℕ) (hk : 1 ≤ kPeriod) (hd : 1 ≤ dPeriod)
    (hs : 1 ≤ smooth)
    (hwf : ∀ c ∈ candles, c.low ≤ c.close ∧ c.close ≤ c.high) :
    (∀ pt ∈ calculateStochastic candles kPeriod dPeriod smooth,
        0 ≤ pt.k ∧ pt.k ≤ 100) ∧
    (∀ i, stochHH candles kPeriod i = stochLL candles kPeriod i →
        stochRawK candles kPeriod i = 50) := by
  constructor
  · intro pt hpt
    unfold calculateStochastic at hpt
    split at hpt
    · simp at hpt
    · obtain ⟨i, hi, rfl⟩ := List.mem_map.1 hpt
      have hilen : i < (stochSmoothedK candles kPeriod smooth).length :=
        List.mem_range.1 (List.mem_of_mem_drop hi)
      have hmem : (stochSmoothedK candles kPeriod smooth).getD i 0 ∈
          stochSmoothedK candles kPeriod smooth := by
        rw [List.getD_eq_getElem _ 0 hilen]
        exact List.getElem_mem hilen
      exact stochSmoothedK_bounds candles kPeriod smooth hk hs hwf _ hmem
  · intro i heq
    unfold stochRawK
    dsimp only
    rw [if_pos (sub_eq_zero.mpr heq)]

/-- C9 witness: for the single candle with open 1, high 2, low 0, close 1 and
all parameters 1, the single stochastic point has `%K = 50`, inside
`[0, 100]`. -/
theorem calculateStochastic_k_bounds_witness :
    0 ≤ (⟨0, 50, 50⟩ : StochasticPoint).k ∧
      (⟨0, 50, 50⟩ : StochasticPoint).k ≤ 100 :=
  (calculateStochastic_k_bounds [⟨0, 1, 2, 0, 1, 0⟩] 1 1 1 (le_refl 1)
      (le_refl 1) (le_refl 1)
      (by intro c hc; rw [List.mem_singleton] at hc; subst hc; norm_num)).1 _
    (by norm_num [calculateStochastic, stochSmoothedK, stochRawKList,
      stochRawK, stochHH, stochLL, windowHighs, windowLows, List.range_succ])

/-- Evaluation helper: the detector fires bullish on `bullCandles`. -/
theorem detect_bullCandles :
    detectHAReversal bullCandles = some PatternDirection.bullish := by
  norm_num [detectHAReversal, bullCandles, flatCandle, convertToHeikinAshi,
    haGo, haNext, haFirst, isRed, isGreen, List.getD]

/-- Evaluation helper: the per-symbol signal `bullCandles` produces. -/
theorem symbolSignal_bullCandles (s : String) :
    symbolSignal? s bullCandles =
      some (alertKey s 4 PatternDirection.bullish, PatternDirection.bullish) := by
  unfold symbolSignal?
  rw [detect_bullCandles]
  norm_num [bullCandles, flatCandle, List.getD_cons_succ, List.getD_cons_zero]

/-- A per-symbol step only keeps old signals or adds one stamped `now` with
expiry `now + SIGNAL_DURATION`. -/
theorem processSymbol_signals_mem (now : ℕ) (st : ScannerState) (sym : String)
    (candles : List Candle) (sig : HASignal) :
    sig ∈ (processSymbol now st sym candles).1.signals →
    sig ∈ st.signals ∨
      (sig.timestamp = now ∧ sig.expiresAt = now + SIGNAL_DURATION) := by
  intro hmem
  unfold processSymbol at hmem
  split at hmem
  · exact Or.inl hmem
  · split at hmem
    · exact Or.inl hmem
    · simp only [List.mem_append, List.mem_singleton] at hmem
      rcases hmem with hmem | rfl
      · exact Or.inl (List.mem_filter.1 hmem).1
      · exact Or.inr ⟨rfl, rfl⟩

/-- The symbol loop only keeps old signals or adds ones stamped `now`. -/
theorem scanSymbols_signals_mem (now : ℕ) (fetch : String → List Candle) :
    ∀ (ws : List String) (acc : ScannerState × List Alert) (sig : HASignal),
      sig ∈ (scanSymbols now fetch acc ws).1.signals →
      sig ∈ acc.1.signals ∨
        (sig.timestamp = now ∧ sig.expiresAt = now + SIGNAL_DURATION) := by
  intro ws
  induction ws with
  | nil =>
      intro acc sig h
      exact Or.inl h
  | cons sym rest ih =>
      intro acc sig h
      unfold scanSymbols at h
      rcases ih _ sig h with hin | hnew
      · exact processSymbol_signals_mem now acc.1 sym (fetch sym) sig hin
      · exact Or.inr hnew

/-- A signal surviving a sweep chain was in the original list. -/
theorem sweeps_subset (sweeps : List ℕ) :
    ∀ (signals : List HASignal) (x : HASignal),
      x ∈ sweeps.foldl (fun sigs t2 => sweepExpired t2 sigs) signals →
      x ∈ signals := by
  induction sweeps with
  | nil =>
      intro signals x h
      exact h
  | cons s rest ih =>
      intro signals x h
      exact (List.mem_filter.1 (ih (sweepExpired s signals) x h)).1

/-- A signal that has not expired by `q` survives every sweep run at or
before `q`. -/
theorem sig_survives_sweeps (q : ℕ) (sig : HASignal) (hq : q < sig.expiresAt) :
    ∀ (sweeps : List ℕ), (∀ t2 ∈ sweeps, t2 ≤ q) →
      ∀ signals, sig ∈ signals →
        sig ∈ sweeps.foldl (fun sigs t2 => sweepExpired t2 sigs) signals := by
  intro sweeps
  induction sweeps with
  | nil =>
      intro _ signals h
      exact h
  | cons s rest ih =>
      intro hs signals h
      apply ih (fun t2 ht2 => hs t2 (List.mem_cons_of_mem _ ht2))
      unfold sweepExpired
      refine List.mem_filter.2 ⟨h, ?_⟩
      simp only [decide_eq_true_eq]
      exact lt_of_le_of_lt (hs s (List.mem_cons_self _ _)) hq

/-- A `find?` over a list where the target is present, satisfies the
predicate, and is the only satisfier, returns exactly the target. -/
theorem find?_eq_some_of_unique {p : HASignal → Bool} :
    ∀ (l : List HASignal) (sig : HASignal), sig ∈ l → p sig = true →
      (∀ x ∈ l, p x = true → x = sig) → l.find? p = some sig := by
  intro l
  induction l with
  | nil =>
      intro sig h
      simp at h
  | cons y t ih =>
      intro sig hmem hp huniq
      rcases List.mem_cons.1 hmem with rfl | hmem
      · rw [List.find?_cons_of_pos _ hp]
      · by_cases hy : p y = true
        · have hysig : y = sig := huniq y (List.mem_cons_self _ _) hy
          subst hysig
          rw [List.find?_cons_of_pos _ hy]
        · rw [List.find?_cons_of_neg _ (by simpa using hy)]
          exact ih sig hmem hp fun x hx hpx =>
            huniq x (List.mem_cons_of_mem _ hx) hpx

/-- C5: every signal a scan cycle creates is stamped with the cycle time and
`expiresAt = now + SIGNAL_DURATION` (10 minutes); and `getSignal` at query
time `q`, after any sweeps run at or before `q`, returns the symbol's unique
signal exactly when `q < expiresAt` and none when `expiresAt ≤ q` -
independently of whether the sweep ran. -/
theorem scanner_signal_lifecycle :
    (∀ (enabled : Bool) (watchlist : List String)
        (fetch : String → List Candle) (now : ℕ) (st : ScannerState)
        (sig : HASignal),
      sig ∈ (scanCycle enabled watchlist fetch now st).1.signals →
      sig ∈ st.signals ∨
        (sig.timestamp = now ∧ sig.expiresAt = now + SIGNAL_DURATION)) ∧
    (∀ (signals : List HASignal) (sweeps : List ℕ) (q : ℕ) (sig : HASignal)
        (symbol : String),
      sig.symbol = symbol → sig ∈ signals →
      (∀ s2 ∈ signals, s2.symbol = symbol → s2 = sig) →
      (∀ t2 ∈ sweeps, t2 ≤ q) →
      ((q < sig.expiresAt →
          getSignal (sweeps.foldl (fun sigs t2 => sweepExpired t2 sigs) signals)
            q symbol = some sig) ∧
       (sig.expiresAt ≤ q →
          getSignal (sweeps.foldl (fun sigs t2 => sweepExpired t2 sigs) signals)
            q symbol = none))) := by
  constructor
  · intro enabled watchlist fetch now st sig hmem
    unfold scanCycle at hmem
    split at hmem
    · exact Or.inl hmem
    · dsimp only at hmem
      split at hmem
      · exact Or.inl hmem
      · split at hmem <;>
          exact scanSymbols_signals_mem now fetch watchlist (st, []) sig hmem
  · intro signals sweeps q sig symbol hsym hmem huniq hsw
    subst hsym
    constructor
    · intro hq
      unfold getSignal
      apply find?_eq_some_of_unique
      · exact sig_survives_sweeps q sig hq sweeps hsw signals hmem
      · simp [hq]
      · intro x hx hpx
        simp only [Bool.and_eq_true, beq_iff_eq, decide_eq_true_eq] at hpx
        exact huniq x (sweeps_subset sweeps signals x hx) hpx.1
    · intro hq
      unfold getSignal
      rw [List.find?_eq_none]
      intro x hx hpx
      simp only [Bool.and_eq_true, beq_iff_eq, decide_eq_true_eq] at hpx
      have hxs := huniq x (sweeps_subset sweeps signals x hx) hpx.1
      subst hxs
      exact absurd hpx.2 (not_lt.mpr hq)

/-- Evaluation helper: a first scan of `symA` at `now = 841000` (inside the
pre-close window, empty state) creates one signal expiring 10 minutes later,
records the dedupe key, and emits one alert. -/
theorem scanCycle_bull_first :
    scanCycle true [symA] bullFetch 841000 ⟨[], []⟩ =
      (⟨[⟨symA, PatternDirection.bullish, 841000, 1441000⟩], [bullKey]⟩,
       [⟨symA, PatternDirection.bullish⟩], [symA]) := by
  simp [scanCycle, scanSymbols, processSymbol, symbolSignal_bullCandles,
    bullFetch, CANDLE_PERIOD_MS, PRE_CLOSE_WINDOW_MS, SIGNAL_DURATION, bullKey]

/-- C5 witness: the signal created by the concrete `841000` scan carries
`expiresAt = 841000 + SIGNAL_DURATION`; a signal with `expiresAt = 601000`
(created at 1000) is returned by `getSignal` at `t + 9` minutes and absent at
`t + 11` minutes, after sweeps at 30000 and 500000. -/
theorem scanner_signal_lifecycle_witness :
    ((⟨symA, PatternDirection.bullish, 841000, 1441000⟩ : HASignal) ∈
        (⟨[], []⟩ : ScannerState).signals ∨
      ((⟨symA, PatternDirection.bullish, 841000, 1441000⟩ : HASignal).timestamp
          = 841000 ∧
       (⟨symA, PatternDirection.bullish, 841000, 1441000⟩ : HASignal).expiresAt
          = 841000 + SIGNAL_DURATION)) ∧
    getSignal ([30000, 500000].foldl (fun sigs t2 => sweepExpired t2 sigs)
        [⟨symA, PatternDirection.bullish, 1000, 601000⟩]) 541000 symA =
      some ⟨symA, PatternDirection.bullish, 1000, 601000⟩ ∧
    getSignal ([30000, 500000].foldl (fun sigs t2 => sweepExpired t2 sigs)
        [⟨symA, PatternDirection.bullish, 1000, 601000⟩]) 661000 symA = none :=
  ⟨scanner_signal_lifecycle.1 true [symA] bullFetch 841000 ⟨[], []⟩
      ⟨symA, PatternDirection.bullish, 841000, 1441000⟩
      (by rw [scanCycle_bull_first]; exact List.mem_singleton.2 rfl),
   (scanner_signal_lifecycle.2 [⟨symA, PatternDirection.bullish, 1000, 601000⟩]
      [30000, 500000] 541000 ⟨symA, PatternDirection.bullish, 1000, 601000⟩ symA
      rfl (List.mem_singleton.2 rfl) (by decide) (by decide)).1 (by decide),
   (scanner_signal_lifecycle.2 [⟨symA, PatternDirection.bullish, 1000, 601000⟩]
      [30000, 500000] 661000 ⟨symA, PatternDirection.bullish, 1000, 601000⟩ symA
      rfl (List.mem_singleton.2 rfl) (by decide) (by decide)).2 (by decide)⟩

/-- A per-symbol step with no signal is a no-op. -/
theorem processSymbol_none (now : ℕ) (st : ScannerState) (sym : String)
    (candles : List Candle) (h : symbolSignal? sym candles = none) :
    processSymbol now st sym candles = (st, []) := by
  unfold processSymbol
  rw [h]

/-- A per-symbol step whose dedupe key was already recorded is a no-op. -/
theorem processSymbol_skip (now : ℕ) (st : ScannerState) (sym : String)
    (candles : List Candle) (k : String) (d : PatternDirection)
    (h : symbolSignal? sym candles = some (k, d))
    (hc : st.alerted.contains k = true) :
    processSymbol now st sym candles = (st, []) := by
  unfold processSymbol
  simp only [h]
  rw [if_pos hc]

/-- A per-symbol step with a fresh dedupe key replaces the signal held for
that symbol, records the key, and emits exactly one alert. -/
theorem processSymbol_fresh (now : ℕ) (st : ScannerState) (sym : String)
    (candles : List Candle) (k : String) (d : PatternDirection)
    (h : symbolSignal? sym candles = some (k, d)) (hfresh : k ∉ st.alerted) :
    processSymbol now st sym candles =
      (⟨(st.signals.filter fun s2 => s2.symbol ≠ sym) ++
          [⟨sym, d, now, now + SIGNAL_DURATION⟩],
        st.alerted ++ [k]⟩, [⟨sym, d⟩]) := by
  unfold processSymbol
  simp only [h]
  rw [if_neg fun hc => hfresh (List.mem_of_elem_eq_true hc)]

/-- The dedupe set after a per-symbol step is the old set, or the old set
with the freshly produced key appended. -/
theorem processSymbol_alerted (now : ℕ) (st : ScannerState) (sym : String)
    (candles : List Candle) :
    (processSymbol now st sym candles).1.alerted = st.alerted ∨
    (∃ p2 : String × PatternDirection,
      symbolSignal? sym candles = some p2 ∧ p2.1 ∉ st.alerted ∧
      (processSymbol now st sym candles).1.alerted = st.alerted ++ [p2.1]) := by
  cases h : symbolSignal? sym candles with
  | none =>
      rw [processSymbol_none now st sym candles h]
      exact Or.inl rfl
  | some p2 =>
      obtain ⟨k, d⟩ := p2
      by_cases hc : st.alerted.contains k = true
      · rw [processSymbol_skip now st sym candles k d h hc]
        exact Or.inl rfl
      · have hfresh : k ∉ st.alerted :=
          fun hm => hc (List.elem_eq_true_of_mem hm)
        rw [processSymbol_fresh now st sym candles k d h hfresh]
        exact Or.inr ⟨(k, d), rfl, hfresh, rfl⟩

/-- A per-symbol step emits no alert or exactly one alert for its symbol. -/
theorem processSymbol_alerts (now : ℕ) (st : ScannerState) (sym : String)
    (candles : List Candle) :
    (processSymbol now st sym candles).2 = [] ∨
    ∃ d2, (processSymbol now st sym candles).2 = [⟨sym, d2⟩] := by
  cases h : symbolSignal? sym candles with
  | none =>
      rw [processSymbol_none now st sym candles h]
      exact Or.inl rfl
  | some p2 =>
      obtain ⟨k, d⟩ := p2
      by_cases hc : st.alerted.contains k = true
      · rw [processSymbol_skip now st sym candles k d h hc]
        exact Or.inl rfl
      · rw [processSymbol_fresh now st sym candles k d h
          fun hm => hc (List.elem_eq_true_of_mem hm)]
        exact Or.inr ⟨d, rfl⟩

/-- After a per-symbol step that produced key `k`, `k` is recorded. -/
theorem processSymbol_key_mem (now : ℕ) (st : ScannerState) (sym : String)
    (candles : List Candle) (k : String) (d : PatternDirection)
    (h : symbolSignal? sym candles = some (k, d)) :
    k ∈ (processSymbol now st sym candles).1.alerted := by
  by_cases hc : st.alerted.contains k = true
  · rw [processSymbol_skip now st sym candles k d h hc]
    exact List.mem_of_elem_eq_true hc
  · rw [processSymbol_fresh now st sym candles k d h
      fun hm => hc (List.elem_eq_true_of_mem hm)]
    exact List.mem_append_right _ (List.mem_singleton.2 rfl)

/-- Keys already recorded stay recorded through the symbol loop. -/
theorem scanSymbols_alerted_mono (now : ℕ) (fetch : String → List Candle) :
    ∀ (ws : List String) (acc : ScannerState × List Alert) (k : String),
      k ∈ acc.1.alerted → k ∈ (scanSymbols now fetch acc ws).1.alerted := by
  intro ws
  induction ws with
  | nil =>
      intro acc k h
      exact h
  | cons sym rest ih =>
      intro acc k h
      unfold scanSymbols
      apply ih
      rcases processSymbol_alerted now acc.1 sym (fetch sym) with
        heq | ⟨p2, -, -, heq⟩
      · rw [heq]
        exact h
      · rw [heq]
        exact List.mem_append_left _ h

/-- The symbol loop grows the dedupe set by at most one key per symbol. -/
theorem scanSymbols_alerted_length (now : ℕ) (fetch : String → List Candle) :
    ∀ (ws : List String) (acc : ScannerState × List Alert),
      (scanSymbols now fetch acc ws).1.alerted.length ≤
        acc.1.alerted.length + ws.length := by
  intro ws
  induction ws with
  | nil =>
      intro acc
      simp [scanSymbols]
  | cons sym rest ih =>
      intro acc
      unfold scanSymbols
      dsimp only
      refine le_trans (ih _) ?_
      rcases processSymbol_alerted now acc.1 sym (fetch sym) with
        heq | ⟨p2, -, -, heq⟩
      · rw [heq]
        simp only [List.length_cons]
        omega
      · rw [heq]
        simp only [List.length_append, List.length_singleton, List.length_cons,
          List.length_nil]
        omega

/-- Every key produced by a symbol of the watchlist is recorded once the
symbol loop finishes. -/
theorem scanSymbols_key_mem (now : ℕ) (fetch : String → List Candle) :
    ∀ (ws : List String) (acc : ScannerState × List Alert) (s k : String)
      (d : PatternDirection),
      s ∈ ws → symbolSignal? s (fetch s) = some (k, d) →
      k ∈ (scanSymbols now fetch acc ws).1.alerted := by
  intro ws
  induction ws with
  | nil =>
      intro acc s k d hs
      simp at hs
  | cons sym rest ih =>
      intro acc s k d hs h
      unfold scanSymbols
      rcases List.mem_cons.1 hs with rfl | hs
      · exact scanSymbols_alerted_mono now fetch rest _ k
          (processSymbol_key_mem now acc.1 s (fetch s) k d h)
      · exact ih _ s k d hs h

/-- A symbol loop over a state that already recorded every producible key is
a no-op: no state change and no alerts. -/
theorem scanSymbols_all_seen (now : ℕ) (fetch : String → List Candle) :
    ∀ (ws : List String) (st : ScannerState) (as0 : List Alert),
      (∀ s ∈ ws, ∀ p2 : String × PatternDirection,
        symbolSignal? s (fetch s) = some p2 → p2.1 ∈ st.alerted) →
      scanSymbols now fetch (st, as0) ws = (st, as0) := by
  intro ws
  induction ws with
  | nil =>
      intro st as0 _
      rfl
  | cons sym rest ih =>
      intro st as0 hall
      unfold scanSymbols
      dsimp only
      have hstep : processSymbol now st sym (fetch sym) = (st, []) := by
        cases h : symbolSignal? sym (fetch sym) with
        | none => exact processSymbol_none now st sym (fetch sym) h
        | some p2 =>
            obtain ⟨k, d⟩ := p2
            exact processSymbol_skip now st sym (fetch sym) k d h
              (List.elem_eq_true_of_mem
                (hall sym (List.mem_cons_self _ _) (k, d) h))
      rw [hstep]
      simp only [List.append_nil]
      exact ih st as0 fun s hs => hall s (List.mem_cons_of_mem _ hs)

/-- Once the dedupe key of symbol `s` is recorded, the symbol loop emits no
further alert for `(s, d)`. -/
theorem scanSymbols_count_skip (now : ℕ) (fetch : String → List Candle)
    (s k : String) (d : PatternDirection)
    (hk : symbolSignal? s (fetch s) = some (k, d)) :
    ∀ (ws : List String) (st : ScannerState) (as0 : List Alert),
      k ∈ st.alerted →
      (scanSymbols now fetch (st, as0) ws).2.countP
          (fun a => decide (a = ⟨s, d⟩)) =
        as0.countP (fun a => decide (a = ⟨s, d⟩)) := by
  intro ws
  induction ws with
  | nil =>
      intro st as0 _
      rfl
  | cons sym rest ih =>
      intro st as0 hkmem
      unfold scanSymbols
      dsimp only
      by_cases hss : sym = s
      · subst hss
        rw [processSymbol_skip now st sym (fetch sym) k d hk
          (List.elem_eq_true_of_mem hkmem)]
        simp only [List.append_nil]
        exact ih st as0 hkmem
      · have hmono : k ∈ (processSymbol now st sym (fetch sym)).1.alerted := by
          rcases processSymbol_alerted now st sym (fetch sym) with
            heq | ⟨p2, -, -, heq⟩
          · rw [heq]
            exact hkmem
          · rw [heq]
            exact List.mem_append_left _ hkmem
        rcases processSymbol_alerts now st sym (fetch sym) with ha | ⟨d2, ha⟩
        · rw [ha, List.append_nil]
          exact ih _ _ hmono
        · rw [ha, ih _ _ hmono, List.countP_append]
          simp [List.countP_cons, Alert.mk.injEq, hss]

/-- A symbol loop over a state where the key of `s` is fresh emits exactly
one alert `(s, d)` (provided no other watchlist symbol collides with that
key string). -/
theorem scanSymbols_count_add (now : ℕ) (fetch : String → List Candle)
    (s k : String) (d : PatternDirection)
    (hk : symbolSignal? s (fetch s) = some (k, d)) :
    ∀ (ws : List String) (st : ScannerState) (as0 : List Alert),
      k ∉ st.alerted → s ∈ ws →
      (∀ s2 ∈ ws, s2 ≠ s → ∀ p2 : String × PatternDirection,
          symbolSignal? s2 (fetch s2) = some p2 → p2.1 ≠ k) →
      (scanSymbols now fetch (st, as0) ws).2.countP
          (fun a => decide (a = ⟨s, d⟩)) =
        as0.countP (fun a => decide (a = ⟨s, d⟩)) + 1 := by
  intro ws
  induction ws with
  | nil =>
      intro st as0 _ hs _
      simp at hs
  | cons sym rest ih =>
      intro st as0 hfresh hs hinj
      unfold scanSymbols
      dsimp only
      by_cases hss : sym = s
      · subst hss
        rw [processSymbol_fresh now st sym (fetch sym) k d hk hfresh]
        rw [scanSymbols_count_skip now fetch sym k d hk rest _ _
          (List.mem_append_right _ (List.mem_singleton.2 rfl))]
        rw [List.countP_append]
        simp [List.countP_cons]
      · have hs2 : s ∈ rest := by
          rcases List.mem_cons.1 hs with rfl | h2
          · exact absurd rfl hss
          · exact h2
        have hkeep : k ∉ (processSymbol now st sym (fetch sym)).1.alerted := by
          rcases processSymbol_alerted now st sym (fetch sym) with
            heq | ⟨p2, hsig, -, heq⟩
          · rw [heq]
            exact hfresh
          · rw [heq]
            intro hm
            rcases List.mem_append.1 hm with hm | hm
            · exact hfresh hm
            · exact hinj sym (List.mem_cons_self _ _) hss p2 hsig
                (List.mem_singleton.1 hm).symm
        have hinj2 : ∀ s2 ∈ rest, s2 ≠ s →
            ∀ p2 : String × PatternDirection,
            symbolSignal? s2 (fetch s2) = some p2 → p2.1 ≠ k :=
          fun s2 h2 => hinj s2 (List.mem_cons_of_mem _ h2)
        rcases processSymbol_alerts now st sym (fetch sym) with ha | ⟨d2, ha⟩
        · rw [ha, List.append_nil]
          exact ih _ _ hkeep hs2 hinj2
        · rw [ha, ih _ _ hkeep hs2 hinj2, List.countP_append]
          simp [List.countP_cons, Alert.mk.injEq, hss]

/-- C3 amended: two consecutive scan cycles inside the pre-close window with
the same fetched candles, where symbol `s` yields the fresh dedupe key `k`
with direction `d`, produce exactly one alert `(s, d)` - emitted by the first
cycle - and the second cycle changes nothing and emits nothing, provided the
dedupe set cannot exceed 500 entries at the end of the first cycle (otherwise
the wholesale clear forgets `k` and the second cycle re-alerts) and no other
watchlist symbol produces the same key string. -/
theorem scanner_dedupe_second_cycle
    (watchlist : List String) (fetch : String → List Candle) (now1 now2 : ℕ)
    (st0 : ScannerState) (s k : String) (d : PatternDirection)
    (hg1 : CANDLE_PERIOD_MS - now1 % CANDLE_PERIOD_MS ≤ PRE_CLOSE_WINDOW_MS)
    (hg2 : CANDLE_PERIOD_MS - now2 % CANDLE_PERIOD_MS ≤ PRE_CLOSE_WINDOW_MS)
    (hcap : st0.alerted.length + watchlist.length ≤ 500)
    (hs : s ∈ watchlist)
    (hk : symbolSignal? s (fetch s) = some (k, d))
    (hfresh : k ∉ st0.alerted)
    (hinj : ∀ s2 ∈ watchlist, s2 ≠ s → ∀ p2 : String × PatternDirection,
        symbolSignal? s2 (fetch s2) = some p2 → p2.1 ≠ k) :
    scanCycle true watchlist fetch now2
        (scanCycle true watchlist fetch now1 st0).1 =
      ((scanCycle true watchlist fetch now1 st0).1, [], watchlist) ∧
    (scanCycle true watchlist fetch now1 st0).2.1.countP
        (fun a => decide (a = ⟨s, d⟩)) = 1 := by
  have hwl : watchlist ≠ [] := List.ne_nil_of_mem hs
  have hlen : (scanSymbols now1 fetch (st0, []) watchlist).1.alerted.length
      ≤ 500 := by
    refine le_trans (scanSymbols_alerted_length now1 fetch watchlist (st0, [])) ?_
    exact hcap
  have hcycle1 : scanCycle true watchlist fetch now1 st0 =
      ((scanSymbols now1 fetch (st0, []) watchlist).1,
       (scanSymbols now1 fetch (st0, []) watchlist).2, watchlist) := by
    unfold scanCycle
    rw [if_neg (by simp [hwl])]
    dsimp only
    rw [if_neg (not_lt.mpr hg1), if_neg (not_lt.mpr hlen)]
  have hallseen : ∀ s2 ∈ watchlist, ∀ p2 : String × PatternDirection,
      symbolSignal? s2 (fetch s2) = some p2 →
      p2.1 ∈ (scanSymbols now1 fetch (st0, []) watchlist).1.alerted := by
    intro s2 hs2 p2 hp2
    obtain ⟨k2, d2⟩ := p2
    exact scanSymbols_key_mem now1 fetch watchlist (st0, []) s2 k2 d2 hs2 hp2
  have hcycle2 : scanCycle true watchlist fetch now2
      (scanSymbols now1 fetch (st0, []) watchlist).1 =
      ((scanSymbols now1 fetch (st0, []) watchlist).1, [], watchlist) := by
    unfold scanCycle
    rw [if_neg (by simp [hwl])]
    dsimp only
    rw [if_neg (not_lt.mpr hg2),
      scanSymbols_all_seen now2 fetch watchlist _ [] hallseen,
      if_neg (not_lt.mpr hlen)]
  constructor
  · rw [hcycle1]
    exact hcycle2
  · rw [hcycle1]
    have hcount := scanSymbols_count_add now1 fetch s k d hk watchlist st0 []
      hfresh hs hinj
    simpa using hcount

/-- C3 witness: a first scan at `841000` (empty state, one-symbol watchlist)
emits exactly one alert; a second scan ten seconds later in the same
pre-close window is a complete no-op. -/
theorem scanner_dedupe_second_cycle_witness :
    scanCycle true [symA] bullFetch 851000
        (scanCycle true [symA] bullFetch 841000 ⟨[], []⟩).1 =
      ((scanCycle true [symA] bullFetch 841000 ⟨[], []⟩).1, [], [symA]) ∧
    (scanCycle true [symA] bullFetch 841000 ⟨[], []⟩).2.1.countP
        (fun a => decide (a = ⟨symA, PatternDirection.bullish⟩)) = 1 :=
  scanner_dedupe_second_cycle [symA] bullFetch 841000 851000 ⟨[], []⟩ symA
    (alertKey symA 4 PatternDirection.bullish) PatternDirection.bullish
    (by decide) (by decide) (by decide)
    (List.mem_singleton.2 rfl)
    (symbolSignal_bullCandles symA)
    (by simp)
    (fun s2 hs2 hne => absurd (List.mem_singleton.1 hs2) hne)

set_option maxRecDepth 1000000 in
/-- Evaluation helper: the bullish key for `symA` is not in `bigAlerted`. -/
theorem bigAlerted_not_contains :
    bigAlerted.contains (alertKey symA 4 PatternDirection.bullish) = false := by
  decide

set_option maxRecDepth 1000000 in
/-- Evaluation helper: membership form of `bigAlerted_not_contains`. -/
theorem bigAlerted_not_mem :
    alertKey symA 4 PatternDirection.bullish ∉ bigAlerted := by
  decide

/-- Evaluation helper: `bigAlerted` holds 501 keys. -/
theorem bigAlerted_length : bigAlerted.length = 501 := by
  simp [bigAlerted]

set_option maxRecDepth 1000000 in
/-- Evaluation helper: scanning `symA` at `841000` over a state with 501 old
dedupe keys appends the fresh key (size 502), which triggers the wholesale
clear - the resulting dedupe set is empty despite the alert just emitted. -/
theorem scanCycle_bull_cap1 :
    scanCycle true [symA] bullFetch 841000 ⟨[], bigAlerted⟩ =
      (⟨[⟨symA, PatternDirection.bullish, 841000, 1441000⟩], []⟩,
       [⟨symA, PatternDirection.bullish⟩], [symA]) := by
  simp [scanCycle, scanSymbols, processSymbol, symbolSignal_bullCandles,
    bullFetch, bigAlerted_not_contains, bigAlerted_not_mem, CANDLE_PERIOD_MS,
    PRE_CLOSE_WINDOW_MS, SIGNAL_DURATION, bigAlerted_length,
    List.length_append]

/-- Evaluation helper: a scan of `symA` at `851000` over the post-clear state
re-alerts on the very same candle and key. -/
theorem scanCycle_bull_second :
    scanCycle true [symA] bullFetch 851000
        ⟨[⟨symA, PatternDirection.bullish, 841000, 1441000⟩], []⟩ =
      (⟨[⟨symA, PatternDirection.bullish, 851000, 1451000⟩],
        [alertKey symA 4 PatternDirection.bullish]⟩,
       [⟨symA, PatternDirection.bullish⟩], [symA]) := by
  simp [scanCycle, scanSymbols, processSymbol, symbolSignal_bullCandles,
    bullFetch, CANDLE_PERIOD_MS, PRE_CLOSE_WINDOW_MS, SIGNAL_DURATION]

/-- C3 counterexample: with 501 previously accumulated dedupe keys, the scan
at `841000` alerts and then clears the dedupe set (size 502 exceeds 500), so
the next cycle at `851000` - same pre-close window, same last-closed-candle
time, same direction - emits a second alert for the same dedupe key, refuting
the unconditional claim that the second cycle produces nothing. -/
theorem scanner_dedupe_cap_counterexample :
    (scanCycle true [symA] bullFetch 841000 ⟨[], bigAlerted⟩).2.1 =
      [⟨symA, PatternDirection.bullish⟩] ∧
    (scanCycle true [symA] bullFetch 851000
        (scanCycle true [symA] bullFetch 841000 ⟨[], bigAlerted⟩).1).2.1 =
      [⟨symA, PatternDirection.bullish⟩] := by
  constructor
  · rw [scanCycle_bull_cap1]
  · rw [scanCycle_bull_cap1]
    show (scanCycle true [symA] bullFetch 851000
        ⟨[⟨symA, PatternDirection.bullish, 841000, 1441000⟩], []⟩).2.1 =
      [⟨symA, PatternDirection.bullish⟩]
    rw [scanCycle_bull_second]

end Trading
